import Mathlib

/-!
# acme-lsp: command dispatcher and output translation

A shallow embedding of `internal/lsp/acmelsp/remote.go`, `internal/lsp/acmelsp/client.go`
and `cmd/L/lspclient.go`.

Conventions of the embedding:

* a Go `string` is a Lean `String` (a sequence of Unicode code points); the byte-wise
  operations used by the code (`strings.HasPrefix`, `strings.ReplaceAll` of a one-byte
  pattern) are taken code point by code point, which agrees with the byte-wise reading
  on valid UTF-8 text;
* a Go `error` is modelled by its message, `none` being `nil`;
* Go `int` values (line and character coordinates, kinds) are `Int`s; the conversions
  `int(x)` of the source are the identity on them, and the additions of `locToLink` wrap
  around at the width of `int` (`wrapInt`);
* writes to `rc.Stdout`, `rc.Stderr` and calls into the collaborators that mutate the
  editor (`text.Edit`, `PrintLocations`, `PlumbLocations`, `editWorkspace`) are recorded,
  in program order, as a list of `Event`s;
* collaborators whose code lives outside the embedded files (the acme window, the proxy
  server, the Go standard library tables) are parameters.
-/

namespace AcmeLsp

/-! ## Go runtime: errors, `fmt`, `strings` -/

/-- A Go `error`, represented by the text of `err.Error()`. -/
abbrev Error := String

deriving instance DecidableEq for Except

/-- An operand of a `fmt` formatting call. -/
inductive Arg
  | int (i : Int)
  | str (s : String)
deriving DecidableEq

/-- Rendering of one operand under one verb: `%d` and `%v` print an integer in decimal,
`%s` and `%v` print a string (or an error's message) as is.  Any other pairing is
reported the way `fmt` does, as `%!verb(value)`. -/
def formatArg (verb : Char) (a : Arg) : List Char :=
  match a with
  | .int i =>
    if verb = 'd' ∨ verb = 'v' then (toString i).data
    else '%' :: '!' :: verb :: '(' :: ((toString i).data ++ [')'])
  | .str s =>
    if verb = 's' ∨ verb = 'v' then s.data
    else '%' :: '!' :: verb :: '(' :: (s.data ++ [')'])

/-- The formatting loop of `fmt.Sprintf`: literal characters are copied, a `%` followed by
a verb consumes the next operand. -/
def sprintfAux : List Char → List Arg → List Char
  | [], _ => []
  | c :: rest, args =>
    if c = '%' then
      match rest, args with
      | v :: rest', a :: args' => formatArg v a ++ sprintfAux rest' args'
      | v :: rest', [] => '%' :: '!' :: v :: "(MISSING)".data ++ sprintfAux rest' []
      | [], _ => "%!(NOVERB)".data
    else c :: sprintfAux rest args

/-- Model of `fmt.Sprintf` for the verbs the program uses (`%d`, `%s`, `%v`). -/
def Sprintf (format : String) (args : List Arg) : String :=
  ⟨sprintfAux format.data args⟩

/-- Model of `fmt.Errorf`: an error whose message is the formatted text. -/
def Errorf (format : String) (args : List Arg) : Error :=
  Sprintf format args

/-- Scanning loop of `strings.ReplaceAll`: `skip` counts the characters of a match that
are still to be passed over. -/
def replaceAux (old new : List Char) : List Char → Nat → List Char
  | [], _ => []
  | _ :: rest, skip + 1 => replaceAux old new rest skip
  | c :: rest, 0 =>
    if old.isPrefixOf (c :: rest) then new ++ replaceAux old new rest (old.length - 1)
    else c :: replaceAux old new rest 0

/-- Model of `strings.ReplaceAll s old new` for a non-empty `old`: the non-overlapping
occurrences of `old`, found from left to right, are replaced by `new`. -/
def ReplaceAll (s old new : String) : String :=
  ⟨replaceAux old.data new.data s.data 0⟩

/-- Model of `strings.HasPrefix s p`. -/
def HasPrefix (s p : String) : Bool :=
  p.data.isPrefixOf s.data

/-- The Go standard-library functions whose behaviour depends on tables outside the
repository: `strings.ToLower` (Unicode case mapping) and the `%q` verb (`strconv.Quote`). -/
structure GoLib where
  ToLower : String → String
  Quote : String → String

/-! ## Protocol data -/

structure Position where
  Line : Int
  Character : Int
deriving DecidableEq

structure Range where
  Start : Position
  End : Position
deriving DecidableEq

structure Location where
  URI : String
  Range : AcmeLsp.Range
deriving DecidableEq

structure TextEdit where
  Range : AcmeLsp.Range
  NewText : String
deriving DecidableEq

structure CompletionItem where
  Label : String
  Kind : Int
  InsertTextFormat : Int
  FilterText : String
  TextEdit : Option AcmeLsp.TextEdit
  AdditionalTextEdits : List AcmeLsp.TextEdit
deriving DecidableEq

structure CompletionList where
  Items : List CompletionItem
deriving DecidableEq

structure TextDocumentIdentifier where
  URI : String
deriving DecidableEq

structure TextDocumentPositionParams where
  TextDocument : TextDocumentIdentifier
  Position : AcmeLsp.Position
deriving DecidableEq

structure CompletionParams where
  TextDocumentPositionParams : AcmeLsp.TextDocumentPositionParams

structure DefinitionParams where
  TextDocumentPositionParams : AcmeLsp.TextDocumentPositionParams

structure TypeDefinitionParams where
  TextDocumentPositionParams : AcmeLsp.TextDocumentPositionParams

structure ImplementationParams where
  TextDocumentPositionParams : AcmeLsp.TextDocumentPositionParams

structure HoverParams where
  TextDocumentPositionParams : AcmeLsp.TextDocumentPositionParams

structure SignatureHelpParams where
  TextDocumentPositionParams : AcmeLsp.TextDocumentPositionParams

structure ReferenceContext where
  IncludeDeclaration : Bool

structure ReferenceParams where
  TextDocumentPositionParams : AcmeLsp.TextDocumentPositionParams
  Context : ReferenceContext

structure RenameParams where
  TextDocument : TextDocumentIdentifier
  Position : AcmeLsp.Position
  NewName : String

structure DocumentSymbolParams where
  TextDocument : TextDocumentIdentifier

structure MarkupContent where
  Kind : String
  Value : String

structure Hover where
  Contents : MarkupContent

structure SignatureInformation where
  Label : String
  Documentation : String

structure SignatureHelp where
  Signatures : List SignatureInformation

/-- A workspace edit: for each document URI the edits to apply to it. -/
structure WorkspaceEdit where
  Changes : List (String × List TextEdit)
deriving DecidableEq

structure ApplyWorkspaceEditParams where
  Label : String
  Edit : WorkspaceEdit

structure ApplyWorkspaceEditResponse where
  Applied : Bool
  FailureReason : String
deriving DecidableEq

/-- A node of the hierarchical document-symbol reply. -/
structure DocumentSymbol where
  Name : String
  Detail : String
  Kind : Int
  Range : AcmeLsp.Range
  SelectionRange : AcmeLsp.Range
  Children : List DocumentSymbol

/-! ## Collaborators -/

/-- An open acme window (`*acmeutil.Win`), given by what it answers to the calls the
program makes on it.

* `Position` is `text.Position(w)`: the cursor position and the file name;
* `DocumentURI` is `text.DocumentURI(w)`: the document URI and the file name;
* `ReadAt sl sc el ec n` is `w.ReadAt(sl, sc, el, ec, buf)` for a buffer `buf` of `n`
  bytes: the error, or the text `string(buf)` the buffer holds after the call;
* `Edit edits` is `text.Edit(w, edits)`: the error of applying the edits to the body. -/
structure Win where
  Position : Except Error (TextDocumentPositionParams × String)
  DocumentURI : Except Error (String × String)
  ReadAt : Int → Int → Int → Int → Nat → Except Error String
  Edit : List TextEdit → Option Error

/-- The proxy server (`proxy.Server`): each request yields the server's RPC error or
its reply. -/
structure Server where
  Completion : CompletionParams → Except Error CompletionList
  Definition : DefinitionParams → Except Error (List Location)
  TypeDefinition : TypeDefinitionParams → Except Error (List Location)
  Implementation : ImplementationParams → Except Error (List Location)
  Hover : HoverParams → Except Error AcmeLsp.Hover
  References : ReferenceParams → Except Error (List Location)
  Rename : RenameParams → Except Error WorkspaceEdit
  SignatureHelp : SignatureHelpParams → Except Error AcmeLsp.SignatureHelp
  DocumentSymbol : DocumentSymbolParams → Except Error (List AcmeLsp.DocumentSymbol)

/-- Functions of the repository that the embedded files call and that live in other
files: `acmeutil.OpenWin`, `PrintLocations`, `PlumbLocations`, `editWorkspace` (each
given by the error it returns) and `lsp.LocationLink`. -/
structure Env where
  OpenWin : Int → Except Error Win
  PrintLocations : List Location → Option Error
  PlumbLocations : List Location → Option Error
  editWorkspace : WorkspaceEdit → Option Error
  LocationLink : Location → String

/-- An observable action of a command, in program order. -/
inductive Event
  | stdout (s : String)
  | stderr (s : String)
  | edit (edits : List TextEdit)
  | printLocations (locs : List Location)
  | plumbLocations (locs : List Location)
  | editWorkspace (we : WorkspaceEdit)
deriving DecidableEq

/-- How a command ends: it returns its `error` (or `nil`), or it stops in a run-time
panic; in both cases `out` is what it did until then. -/
inductive Outcome
  | returned (out : List Event) (err : Option Error)
  | panicked (out : List Event)
deriving DecidableEq

/-- The command context `RemoteCmd`; its `Stdout` and `Stderr` writers are the
`Event.stdout` and `Event.stderr` streams. -/
structure RemoteCmd where
  server : Server
  winid : Int

/-! ## `remote.go` -/

/-- `RemoteCmd.getPosition`. -/
def RemoteCmd.getPosition (env : Env) (rc : RemoteCmd) :
    Except Error (TextDocumentPositionParams × String) :=
  match env.OpenWin rc.winid with
  | .error err =>
    .error (Errorf "failed to to open window %v: %v" [.int rc.winid, .str err])
  | .ok w => w.Position

/-- `generateEditCmd`. -/
def generateEditCmd (te : TextEdit) : String :=
  Sprintf "%d+#%d,%d+#%dc/%s"
    [.int te.Range.Start.Line,
     .int te.Range.Start.Character,
     .int te.Range.End.Line,
     .int te.Range.End.Character,
     .str (ReplaceAll te.NewText "\n" "\\n")]

/-- The loop variables of the listing pass of `RemoteCmd.Completion`: the cached
`selection` and what has been written so far. -/
structure ListState where
  selection : String
  out : List Event
deriving DecidableEq

/-- Lines 131-142 of `remote.go`: choose the filter key and print the candidate when
the selection is non-empty and a case-folded beginning of the key. -/
def filterAndPrint ( lib : GoLib) (selection : String) (out : List Event)
    (item : CompletionItem) (te : TextEdit) : ListState :=
  let filter := if item.InsertTextFormat = 2 then item.FilterText else te.NewText
  if selection ≠ "" ∧ HasPrefix (lib.ToLower filter) (lib.ToLower selection) = true then
    ⟨selection,
      out
        ++ [.stdout (lib.Quote item.Label ++ Sprintf ", type: %d\n" [.int item.Kind])]
        ++ item.AdditionalTextEdits.map
            (fun ate => .stdout (Sprintf "%s\n" [.str (generateEditCmd ate)]))
        ++ [.stdout (Sprintf "%s\n" [.str (generateEditCmd te)])]⟩
  else ⟨selection, out⟩

/-- One iteration of the listing loop of `RemoteCmd.Completion` (lines 116-143).
`.error out` is the run-time panic of `make([]byte, ec - sc)` on a negative length. -/
def listStep ( lib : GoLib) (w : Win) (st : ListState) (item : CompletionItem) :
    Except (List Event) ListState :=
  match item.TextEdit with
  | none => .ok st
  | some te =>
    let sl := te.Range.Start.Line
    let sc := te.Range.Start.Character
    let el := te.Range.End.Line
    let ec := te.Range.End.Character
    if st.selection = "" then
      if ec - sc < 0 then .error st.out
      else
        match w.ReadAt sl sc el ec (ec - sc).toNat with
        | .error _ => .ok st
        | .ok buf => .ok (filterAndPrint lib buf st.out item te)
    else .ok (filterAndPrint lib st.selection st.out item te)

/-- The listing loop of `RemoteCmd.Completion` over the candidates. -/
def listLoop ( lib : GoLib) (w : Win) : ListState → List CompletionItem →
    Except (List Event) ListState
  | st, [] => .ok st
  | st, item :: items =>
    match listStep lib w st item with
    | .error out => .error out
    | .ok st' => listLoop lib w st' items

/-- `RemoteCmd.Completion`. -/
def RemoteCmd.Completion (env : Env) ( lib : GoLib) (rc : RemoteCmd) (edit : Bool) :
    Outcome :=
  match env.OpenWin rc.winid with
  | .error err => .returned [] (some err)
  | .ok w =>
    match w.Position with
    | .error err => .returned [] (some err)
    | .ok (pos, _) =>
      match rc.server.Completion ⟨pos⟩ with
      | .error err => .returned [] (some err)
      | .ok result =>
        match edit, result.Items with
        | true, [item] =>
          match item.TextEdit with
          | none => .returned [] (some (Errorf "nil TextEdit in completion item" []))
          | some textEdit =>
            match w.Edit [textEdit] with
            | some err =>
              .returned [.edit [textEdit]]
                (some (Errorf "failed to apply completion edit: %v" [.str err]))
            | none => .returned [.edit [textEdit]] none
        | _, items =>
          let out :=
            if items.length = 0 then [Event.stderr (Sprintf "no completion\n" [])] else []
          match listLoop lib w ⟨"", out⟩ items with
          | .error out' => .panicked out'
          | .ok st => .returned st.out none

/-- `RemoteCmd.Definition`. -/
def RemoteCmd.Definition (env : Env) (rc : RemoteCmd) (print : Bool) : Outcome :=
  match rc.getPosition env with
  | .error err => .returned [] (some (Errorf "failed to get position: %v" [.str err]))
  | .ok (pos, _) =>
    match rc.server.Definition ⟨pos⟩ with
    | .error err => .returned [] (some (Errorf "bad server response: %v" [.str err]))
    | .ok locations =>
      if print then .returned [.printLocations locations] (env.PrintLocations locations)
      else .returned [.plumbLocations locations] (env.PlumbLocations locations)

/-- `RemoteCmd.Hover`. -/
def RemoteCmd.Hover (env : Env) (rc : RemoteCmd) : Outcome :=
  match rc.getPosition env with
  | .error err => .returned [] (some err)
  | .ok (pos, _) =>
    match rc.server.Hover ⟨pos⟩ with
    | .error err => .returned [] (some err)
    | .ok hov => .returned [.stdout (Sprintf "%v\n" [.str hov.Contents.Value])] none

/-- `RemoteCmd.Implementation`. -/
def RemoteCmd.Implementation (env : Env) (rc : RemoteCmd) (_print : Bool) : Outcome :=
  match rc.getPosition env with
  | .error err => .returned [] (some err)
  | .ok (pos, _) =>
    match rc.server.Implementation ⟨pos⟩ with
    | .error err => .returned [] (some err)
    | .ok loc =>
      if loc.length = 0 then
        .returned [.stderr (Sprintf "No implementations found.\n" [])] none
      else .returned [.printLocations loc] (env.PrintLocations loc)

/-- `RemoteCmd.References`. -/
def RemoteCmd.References (env : Env) (rc : RemoteCmd) : Outcome :=
  match rc.getPosition env with
  | .error err => .returned [] (some err)
  | .ok (pos, _) =>
    match rc.server.References ⟨pos, ⟨true⟩⟩ with
    | .error err => .returned [] (some err)
    | .ok loc =>
      if loc.length = 0 then
        .returned [.stderr (Sprintf "No references found.\n" [])] none
      else .returned [.printLocations loc] (env.PrintLocations loc)

/-- `RemoteCmd.Rename`. -/
def RemoteCmd.Rename (env : Env) (rc : RemoteCmd) (newname : String) : Outcome :=
  match rc.getPosition env with
  | .error err => .returned [] (some err)
  | .ok (pos, _) =>
    match rc.server.Rename ⟨pos.TextDocument, pos.Position, newname⟩ with
    | .error err => .returned [] (some err)
    | .ok we => .returned [.editWorkspace we] (env.editWorkspace we)

/-- `RemoteCmd.SignatureHelp`. -/
def RemoteCmd.SignatureHelp (env : Env) (rc : RemoteCmd) : Outcome :=
  match rc.getPosition env with
  | .error err => .returned [] (some err)
  | .ok (pos, _) =>
    match rc.server.SignatureHelp ⟨pos⟩ with
    | .error err => .returned [] (some err)
    | .ok sh =>
      .returned
        (sh.Signatures.flatMap fun sig =>
          [.stdout (Sprintf "%v\n" [.str sig.Label]),
           .stdout (Sprintf "%v\n" [.str sig.Documentation])])
        none

mutual
/-- `walkDocumentSymbols`: the callback `f` is given by the actions it performs. -/
def walkDocumentSymbols {α : Type} (syms : List DocumentSymbol) (depth : Nat)
    (f : DocumentSymbol → Nat → List α) : List α :=
  match syms with
  | [] => []
  | s :: rest =>
    f s depth ++ walkChildren s (depth + 1) f ++ walkDocumentSymbols rest depth f
/-- The recursive call `walkDocumentSymbols(s.Children, depth+1, f)` on the children
of `s`. -/
def walkChildren {α : Type} (s : DocumentSymbol) (depth : Nat)
    (f : DocumentSymbol → Nat → List α) : List α :=
  match s with
  | ⟨_, _, _, _, _, children⟩ => walkDocumentSymbols children depth f
end

/-- Model of `strings.Repeat s count` for a non-negative `count`. -/
def Repeat (s : String) (count : Nat) : String :=
  ⟨(List.replicate count s.data).flatten⟩

/-- `RemoteCmd.DocumentSymbol`. -/
def RemoteCmd.DocumentSymbol (env : Env) (rc : RemoteCmd) : Outcome :=
  match env.OpenWin rc.winid with
  | .error err => .returned [] (some err)
  | .ok win =>
    match win.DocumentURI with
    | .error err => .returned [] (some err)
    | .ok (uri, _) =>
      match rc.server.DocumentSymbol ⟨⟨uri⟩⟩ with
      | .error err => .returned [] (some err)
      | .ok syms =>
        if syms.length = 0 then
          .returned [.stderr (Sprintf "No symbols found.\n" [])] none
        else
          .returned
            (walkDocumentSymbols syms 0 fun s depth =>
              let loc : Location := ⟨uri, s.SelectionRange⟩
              let indent := Repeat " " depth
              [.stdout (Sprintf "%v%v %v %v\n"
                  [.str indent, .int s.Kind, .str s.Name, .str s.Detail]),
               .stdout (Sprintf "%v %v\n" [.str indent, .str (env.LocationLink loc)])])
            none

/-- `RemoteCmd.TypeDefinition`. -/
def RemoteCmd.TypeDefinition (env : Env) (rc : RemoteCmd) (print : Bool) : Outcome :=
  match rc.getPosition env with
  | .error err => .returned [] (some err)
  | .ok (pos, _) =>
    match rc.server.TypeDefinition ⟨pos⟩ with
    | .error err => .returned [] (some err)
    | .ok locations =>
      if print then .returned [.printLocations locations] (env.PrintLocations locations)
      else .returned [.plumbLocations locations] (env.PlumbLocations locations)

/-! ## `client.go` -/

/-- `clientHandler.ApplyEdit`: the response and the RPC error handed back to the
session. -/
def clientHandler.ApplyEdit (env : Env) (params : ApplyWorkspaceEditParams) :
    ApplyWorkspaceEditResponse × Option Error :=
  match env.editWorkspace params.Edit with
  | some err => (⟨false, err⟩, none)
  | none => (⟨true, ""⟩, none)

/-! ## `lspclient.go` -/

/-- The value a Go `int` of `bits` bits holds after an arithmetic result `x`: `x` wrapped
around into the range from `-2^(bits-1)` to `2^(bits-1) - 1` (`bits` is 64, or 32 on a
32-bit build). -/
def wrapInt (bits : Nat) (x : Int) : Int :=
  (x + 2 ^ (bits - 1)) % (2 * 2 ^ (bits - 1)) - 2 ^ (bits - 1)

/-- `locToLink`, for an `int` of `bits` bits; `uriToFilename` is defined in another file
of the command. -/
def locToLink (bits : Nat) (uriToFilename : String → String) (l : Location) : String :=
  let p := uriToFilename l.URI
  Sprintf "%s:%v:%v-%v:%v"
    [.str p,
     .int (wrapInt bits (l.Range.Start.Line + 1)),
     .int (wrapInt bits (l.Range.Start.Character + 1)),
     .int (wrapInt bits (l.Range.End.Line + 1)),
     .int (wrapInt bits (l.Range.End.Character + 1))]

/-- The coordinate `c` is a value of an `int` of `bits` bits other than the largest
one. -/
def belowMaxInt (bits : Nat) (c : Int) : Prop :=
  -(2 ^ (bits - 1)) ≤ c ∧ c + 1 < 2 ^ (bits - 1)

/-- Scanning loop of `filepath.Ext`, from the last character backwards: `acc` holds the
characters already passed; the scan stops at a path separator (no extension) or at a
dot (the extension is the dot and what follows it). -/
def extAux : List Char → List Char → List Char
  | [], _ => []
  | c :: rest, acc =>
    if c = '/' then []
    else if c = '.' then '.' :: acc
    else extAux rest (c :: acc)

/-- Model of `filepath.Ext` for slash-separated paths: the suffix of the last path element
that starts at its last dot, or the empty string when it has no dot. -/
def Ext (path : String) : String :=
  ⟨extAux path.data.reverse []⟩

structure TextDocumentItem where
  URI : String
  LanguageID : String
  Version : Int
  Text : String
deriving DecidableEq

structure DidOpenTextDocumentParams where
  TextDocument : TextDocumentItem
deriving DecidableEq

/-- The client of `lspclient.go`, given by its connection: `Notify method params` is the
error of `c.rpc.Notify(c.ctx, method, params)`. -/
structure lspClient where
  Notify : String → DidOpenTextDocumentParams → Option Error

/-- `lspClient.DidOpen`: the notification handed to the connection (method and
parameters) and the error returned. -/
def lspClient.DidOpen (c : lspClient) (filename : String) (body : String) :
    (String × DidOpenTextDocumentParams) × Option Error :=
  let lang := Ext filename
  let lang := if lang = "py" then "python" else lang
  let params : DidOpenTextDocumentParams :=
    ⟨⟨"file://" ++ filename, lang, 0, body⟩⟩
  (("textDocument/didOpen", params), c.Notify "textDocument/didOpen" params)

/-! ## Specification-side definitions -/

/-- Specification of the escaping: every newline character becomes the two characters
backslash and `n`, every other character stays. -/
def escapeNewlines (s : String) : String :=
  ⟨s.data.flatMap fun c => if c = '\n' then ['\\', 'n'] else [c]⟩

/-- Specification of the filter key of a candidate: `FilterText` for a snippet
(`InsertTextFormat` 2), otherwise the `NewText` of its edit. -/
def filterKey (item : CompletionItem) (te : TextEdit) : String :=
  if item.InsertTextFormat = 2 then item.FilterText else te.NewText

/-- What the listing prints for one candidate: its label and kind, an edit command for
each additional edit, then the edit command of its primary edit. -/
def candidateLines ( lib : GoLib) (item : CompletionItem) (te : TextEdit) : List Event :=
  Event.stdout (lib.Quote item.Label ++ ", type: " ++ toString item.Kind ++ "\n")
    :: (item.AdditionalTextEdits.map fun ate => Event.stdout (generateEditCmd ate ++ "\n"))
    ++ [Event.stdout (generateEditCmd te ++ "\n")]

/-- Specification of the listing for a selected fragment `sel`: the candidates without
an edit print nothing, and a candidate with an edit is printed exactly when its
lower-cased filter key starts with the lower-cased fragment. -/
def listingOf ( lib : GoLib) (sel : String) (items : List CompletionItem) : List Event :=
  items.flatMap fun item =>
    match item.TextEdit with
    | none => []
    | some te =>
      if (lib.ToLower sel).data <+: (lib.ToLower (filterKey item te)).data then
        candidateLines lib item te
      else []

/-! ## Concrete scenarios -/

/-- A case mapping for plain ASCII text, and quoting in double quotes. -/
def asciiLib : GoLib where
  ToLower := fun s => ⟨s.data.map Char.toLower⟩
  Quote := fun s => "\"" ++ s ++ "\""

/-- The cursor of the scenarios: line 3, character 2 of `/a/b.go`. -/
def cursor : TextDocumentPositionParams :=
  ⟨⟨"file:///a/b.go"⟩, ⟨3, 2⟩⟩

/-- A window on `/a/b.go` in which every non-empty range that is read holds `text`
(a buffer of length zero holds the empty text); edits succeed. -/
def winHolding (text : String) : Win where
  Position := .ok (cursor, "/a/b.go")
  DocumentURI := .ok ("file:///a/b.go", "/a/b.go")
  ReadAt := fun _ _ _ _ n => .ok (if n = 0 then "" else text)
  Edit := fun _ => none

/-- An environment in which every window id opens `w` and the collaborators succeed. -/
def envOf (w : Win) : Env where
  OpenWin := fun _ => .ok w
  PrintLocations := fun _ => none
  PlumbLocations := fun _ => none
  editWorkspace := fun _ => none
  LocationLink := fun l => l.URI

/-- A server that answers completions with `items`, location requests with `locs`, and
the other requests with empty replies. -/
def serverReplying (items : List CompletionItem) (locs : List Location) : Server where
  Completion := fun _ => .ok ⟨items⟩
  Definition := fun _ => .ok locs
  TypeDefinition := fun _ => .ok locs
  Implementation := fun _ => .ok locs
  Hover := fun _ => .ok ⟨⟨"plaintext", ""⟩⟩
  References := fun _ => .ok locs
  Rename := fun _ => .ok ⟨[]⟩
  SignatureHelp := fun _ => .ok ⟨[]⟩
  DocumentSymbol := fun _ => .ok []

/-- A server that answers every request with the RPC error `e`. -/
def serverFailing (e : Error) : Server where
  Completion := fun _ => .error e
  Definition := fun _ => .error e
  TypeDefinition := fun _ => .error e
  Implementation := fun _ => .error e
  Hover := fun _ => .error e
  References := fun _ => .error e
  Rename := fun _ => .error e
  SignatureHelp := fun _ => .error e
  DocumentSymbol := fun _ => .error e

/-- The candidate `label` replacing characters `sc` to `ec` of line 3 by `newText`. -/
def candidate (label newText : String) (sc ec : Int) : CompletionItem :=
  ⟨label, 3, 1, "", some ⟨⟨⟨3, sc⟩, ⟨3, ec⟩⟩, newText⟩, []⟩

/-- A snippet candidate: its filter key is `filterText`. -/
def snippet (label filterText newText : String) (sc ec : Int) : CompletionItem :=
  ⟨label, 15, 2, filterText, some ⟨⟨⟨3, sc⟩, ⟨3, ec⟩⟩, newText⟩, []⟩

/-- The location (0,0)-(0,5) of `/a/b.go`. -/
def sampleLocation : Location :=
  ⟨"file:///a/b.go", ⟨⟨0, 0⟩, ⟨0, 5⟩⟩⟩

/-- The read the listing pass makes for the edit `te` while no fragment is cached:
`w.ReadAt` on the range of `te`, into a buffer of `ec - sc` bytes. -/
def fragmentAt (w : Win) (te : TextEdit) : Except Error String :=
  w.ReadAt te.Range.Start.Line te.Range.Start.Character te.Range.End.Line
    te.Range.End.Character (te.Range.End.Character - te.Range.Start.Character).toNat

/-- The read for `te` cannot panic: the range does not end at a smaller character
offset than it starts at. -/
def readable (te : TextEdit) : Prop :=
  0 ≤ te.Range.End.Character - te.Range.Start.Character

/-- A window like `winHolding text`, except that reading at line 9 fails. -/
def winFailingOnLine9 (text : String) : Win where
  Position := .ok (cursor, "/a/b.go")
  DocumentURI := .ok ("file:///a/b.go", "/a/b.go")
  ReadAt := fun sl _ _ _ n =>
    if sl = 9 then .error "address out of range" else .ok (if n = 0 then "" else text)
  Edit := fun _ => none

/-- A candidate whose edit lies on line 9. -/
def candidateOnLine9 (label newText : String) : CompletionItem :=
  ⟨label, 3, 1, "", some ⟨⟨⟨9, 0⟩, ⟨9, 2⟩⟩, newText⟩, []⟩

/-! ## Symbol forests -/

mutual
/-- Number of symbols of a forest. -/
def countSymbols (syms : List DocumentSymbol) : Nat :=
  match syms with
  | [] => 0
  | s :: rest => 1 + countChildren s + countSymbols rest
/-- Number of symbols below `s`. -/
def countChildren (s : DocumentSymbol) : Nat :=
  match s with
  | ⟨_, _, _, _, _, children⟩ => countSymbols children
end

/-- Specification of a depth-first pre-order walk with an explicit stack of symbols
tagged with their depth: the top of the stack is visited, then its children are pushed,
in list order and one level deeper, above the symbols that were waiting. -/
def preorderStack : Nat → List (DocumentSymbol × Nat) → List (DocumentSymbol × Nat)
  | 0, _ => []
  | _ + 1, [] => []
  | fuel + 1, (s, d) :: stack =>
    (s, d) :: preorderStack fuel ((s.Children.map fun c => (c, d + 1)) ++ stack)

/-- Specification of the visiting order of a forest: its symbols in depth-first
pre-order, the top-level symbols at depth 0. -/
def preorder (syms : List DocumentSymbol) : List (DocumentSymbol × Nat) :=
  preorderStack (countSymbols syms) (syms.map fun s => (s, 0))

/-- What `RemoteCmd.DocumentSymbol` prints for one symbol at depth `d`: a line with `d`
spaces, the kind, the name and the detail, then a line with `d` spaces, one more space
and the location link of the selection range. -/
def symbolLines (env : Env) (uri : String) (s : DocumentSymbol) (d : Nat) : List Event :=
  [.stdout (⟨List.replicate d ' '⟩ ++ toString s.Kind ++ " " ++ s.Name ++ " " ++ s.Detail
      ++ "\n"),
   .stdout (⟨List.replicate d ' '⟩ ++ " " ++ env.LocationLink ⟨uri, s.SelectionRange⟩
      ++ "\n")]

/-- A server that answers the document-symbol request with `syms`. -/
def serverSymbols (syms : List DocumentSymbol) : Server :=
  { serverReplying [] [] with DocumentSymbol := fun _ => .ok syms }

/-- A leaf symbol of kind 12 on line `line`. -/
def leafSymbol (name : String) (line : Int) : DocumentSymbol :=
  ⟨name, "", 12, ⟨⟨line, 0⟩, ⟨line, 9⟩⟩, ⟨⟨line, 5⟩, ⟨line, 6⟩⟩, []⟩

/-- The forest of the scenarios: a type `T` with the methods `m` and `n`, then a
function `g`. -/
def sampleForest : List DocumentSymbol :=
  [⟨"T", "struct", 23, ⟨⟨0, 0⟩, ⟨4, 1⟩⟩, ⟨⟨0, 5⟩, ⟨0, 6⟩⟩,
      [leafSymbol "m" 1, leafSymbol "n" 2]⟩,
   leafSymbol "g" 6]

/-! ## Lemmas on the runtime model -/

theorem replaceAux_single (a : Char) (new l : List Char) :
    replaceAux [a] new l 0 = l.flatMap fun c => if c = a then new else [c] := by
  induction l with
  | nil => simp [replaceAux]
  | cons c rest ih =>
    by_cases h : c = a
    · subst h
      simp [replaceAux, ih]
    · have h' : ¬ a = c := fun e => h e.symm
      simp [replaceAux, ih, h, h']

theorem ReplaceAll_newline (s : String) :
    ReplaceAll s "\n" "\\n" = escapeNewlines s := by
  apply String.ext
  simp only [ReplaceAll, escapeNewlines]
  exact replaceAux_single _ _ s.data

theorem ite_ne_of_ne {α : Type} {c : Prop} [Decidable c] {a b x : α}
    (h1 : a ≠ x) (h2 : b ≠ x) : (if c then a else b) ≠ x := by
  split <;> assumption

theorem digitChar_ne_newline (n : Nat) : Nat.digitChar n ≠ '\n' := by
  unfold Nat.digitChar
  repeat' refine ite_ne_of_ne (by decide) ?_
  decide

theorem toDigitsCore_no_newline (fuel n : Nat) (ds : List Char)
    (h : '\n' ∉ ds) : '\n' ∉ Nat.toDigitsCore 10 fuel n ds := by
  induction fuel generalizing n ds with
  | zero => simpa [Nat.toDigitsCore] using h
  | succ fuel ih =>
    have hd : '\n' ∉ Nat.digitChar (n % 10) :: ds := by
      simp only [List.mem_cons, not_or]
      exact ⟨fun e => digitChar_ne_newline _ e.symm, h⟩
    simp only [Nat.toDigitsCore]
    split_ifs
    · exact hd
    · exact ih _ _ hd

theorem natRepr_no_newline (n : Nat) : '\n' ∉ (Nat.repr n).data := by
  simp only [Nat.repr, Nat.toDigits, List.asString]
  exact toDigitsCore_no_newline _ _ _ (by simp)

theorem intToString_no_newline (i : Int) : '\n' ∉ (toString i).data := by
  show '\n' ∉ (Int.repr i).data
  cases i with
  | ofNat m => exact natRepr_no_newline m
  | negSucc m =>
    simp only [Int.repr, String.data_append, List.mem_append, not_or]
    exact ⟨by decide, natRepr_no_newline _⟩

theorem escapeNewlines_no_newline (s : String) : '\n' ∉ (escapeNewlines s).data := by
  simp only [escapeNewlines, List.mem_flatMap, not_exists, not_and]
  intro c _
  by_cases h : c = '\n'
  · simp [h]
  · simpa [h] using fun e => h e.symm

theorem generateEditCmd_eq (te : TextEdit) :
    generateEditCmd te
      = toString te.Range.Start.Line ++ "+#" ++ toString te.Range.Start.Character
        ++ "," ++ toString te.Range.End.Line ++ "+#" ++ toString te.Range.End.Character
        ++ "c/" ++ escapeNewlines te.NewText := by
  apply String.ext
  simp [generateEditCmd, Sprintf, sprintfAux, formatArg, ReplaceAll_newline]

theorem Sprintf_line (t : String) : Sprintf "%s\n" [.str t] = t ++ "\n" := by
  apply String.ext
  simp [Sprintf, sprintfAux, formatArg]

theorem Sprintf_type (k : Int) :
    Sprintf ", type: %d\n" [.int k] = ", type: " ++ toString k ++ "\n" := by
  apply String.ext
  simp [Sprintf, sprintfAux, formatArg]

theorem Errorf_bad_response (err : Error) :
    Errorf "bad server response: %v" [.str err] = "bad server response: " ++ err := by
  apply String.ext
  simp [Errorf, Sprintf, sprintfAux, formatArg]

theorem Errorf_apply_failed (err : Error) :
    Errorf "failed to apply completion edit: %v" [.str err]
      = "failed to apply completion edit: " ++ err := by
  apply String.ext
  simp [Errorf, Sprintf, sprintfAux, formatArg]

theorem filterAndPrint_empty ( lib : GoLib) (out : List Event) (item : CompletionItem)
    (te : TextEdit) : filterAndPrint lib "" out item te = ⟨"", out⟩ := by
  simp [filterAndPrint]

theorem filterAndPrint_cached ( lib : GoLib) (sel : String) (out : List Event)
    (item : CompletionItem) (te : TextEdit) (hsel : sel ≠ "") :
    filterAndPrint lib sel out item te
      = ⟨sel, out ++
          if (lib.ToLower sel).data <+: (lib.ToLower (filterKey item te)).data then
            candidateLines lib item te
          else []⟩ := by
  have hkey : (if item.InsertTextFormat = 2 then item.FilterText else te.NewText)
      = filterKey item te := rfl
  simp only [filterAndPrint, hkey, HasPrefix, List.isPrefixOf_iff_prefix, ne_eq, hsel,
    not_false_eq_true, true_and, Sprintf_line, Sprintf_type]
  split_ifs
  · simp [candidateLines, String.append_assoc]
  · simp

theorem listLoop_cached ( lib : GoLib) (w : Win) (sel : String) (hsel : sel ≠ "")
    (items : List CompletionItem) (out : List Event) :
    listLoop lib w ⟨sel, out⟩ items = .ok ⟨sel, out ++ listingOf lib sel items⟩ := by
  induction items generalizing out with
  | nil => simp [listLoop, listingOf]
  | cons item items ih =>
    cases hte : item.TextEdit with
    | none =>
      simp only [listLoop, listStep, hte]
      rw [ih]
      simp [listingOf, hte]
    | some te =>
      simp only [listLoop, listStep, hte, hsel, if_false, filterAndPrint_cached lib sel out item te hsel]
      rw [ih]
      simp [listingOf, hte, List.append_assoc]

/-! ## Edit commands -/

/-- C3. `generateEditCmd` returns the four range coordinates in decimal, unchanged, in
the shape `sl+#sc,el+#ecc/text`, where `text` is `NewText` with every newline replaced
by backslash and `n`; the command contains no newline character. -/
theorem generateEditCmd_format (te : TextEdit) :
    generateEditCmd te
        = toString te.Range.Start.Line ++ "+#" ++ toString te.Range.Start.Character
          ++ "," ++ toString te.Range.End.Line ++ "+#" ++ toString te.Range.End.Character
          ++ "c/" ++ escapeNewlines te.NewText
      ∧ '\n' ∉ (generateEditCmd te).data := by
  refine ⟨generateEditCmd_eq te, ?_⟩
  rw [generateEditCmd_eq]
  simp only [String.data_append, List.mem_append, not_or]
  refine ⟨⟨⟨⟨⟨⟨⟨⟨?_, ?_⟩, ?_⟩, ?_⟩, ?_⟩, ?_⟩, ?_⟩, ?_⟩, ?_⟩ <;>
    first
    | exact intToString_no_newline _
    | exact escapeNewlines_no_newline _
    | decide

/-- C4. The escaping of `generateEditCmd` is not injective: for every range, the edit
whose `NewText` is a newline and the edit whose `NewText` is a backslash followed by
`n` are different edits with the same command, so no unescape function can recover
`NewText`. -/
theorem generateEditCmd_collision (r : AcmeLsp.Range) :
    (⟨r, "\n"⟩ : TextEdit) ≠ ⟨r, "\\n"⟩
      ∧ generateEditCmd ⟨r, "\n"⟩ = generateEditCmd ⟨r, "\\n"⟩ := by
  refine ⟨?_, ?_⟩
  · intro h
    have h2 : ("\n" : String) = "\\n" := congrArg TextEdit.NewText h
    exact absurd h2 (by decide)
  · rw [generateEditCmd_eq, generateEditCmd_eq]
    have h : escapeNewlines "\n" = escapeNewlines "\\n" := by decide
    simp only [h]

/-! ## Location links -/

theorem wrapInt_succ (bits : Nat) (c : Int) (h : belowMaxInt bits c) :
    wrapInt bits (c + 1) = c + 1 := by
  obtain ⟨hlo, hhi⟩ := h
  have hpos : (0 : Int) < 2 ^ (bits - 1) := by positivity
  unfold wrapInt
  rw [Int.emod_eq_of_lt (by omega) (by omega)]
  omega

/-- C5, refuted. On a 64-bit build, for the location of `/a/b.go` whose lines are the
largest `int`, 9223372036854775807, `locToLink` prints the line
-9223372036854775808, not 9223372036854775808. -/
theorem locToLink_overflow_counterexample :
    locToLink 64 (fun _ => "/a/b.go")
        ⟨"file:///a/b.go", ⟨⟨9223372036854775807, 0⟩, ⟨9223372036854775807, 5⟩⟩⟩
      = "/a/b.go:-9223372036854775808:1--9223372036854775808:6" := by
  decide

/-- C5, amended. For every location whose four coordinates are `int` values below the
largest one, `locToLink` prints the path of the location, then each coordinate of its
range increased by one, in the shape `path:sl:sc-el:ec`; the range (0,0)-(0,5) of a
location whose path is `/a/b.go` gives `/a/b.go:1:1-1:6`. -/
theorem locToLink_format (bits : Nat) (uriToFilename : String → String) (l : Location)
    (hsl : belowMaxInt bits l.Range.Start.Line)
    (hsc : belowMaxInt bits l.Range.Start.Character)
    (hel : belowMaxInt bits l.Range.End.Line)
    (hec : belowMaxInt bits l.Range.End.Character) :
    locToLink bits uriToFilename l
        = uriToFilename l.URI ++ ":" ++ toString (l.Range.Start.Line + 1) ++ ":"
          ++ toString (l.Range.Start.Character + 1) ++ "-"
          ++ toString (l.Range.End.Line + 1) ++ ":"
          ++ toString (l.Range.End.Character + 1)
      ∧ (uriToFilename l.URI = "/a/b.go" → l.Range = ⟨⟨0, 0⟩, ⟨0, 5⟩⟩ →
          locToLink bits uriToFilename l = "/a/b.go:1:1-1:6") := by
  have hfmt : locToLink bits uriToFilename l
        = uriToFilename l.URI ++ ":" ++ toString (l.Range.Start.Line + 1) ++ ":"
          ++ toString (l.Range.Start.Character + 1) ++ "-"
          ++ toString (l.Range.End.Line + 1) ++ ":"
          ++ toString (l.Range.End.Character + 1) := by
    apply String.ext
    simp [locToLink, Sprintf, sprintfAux, formatArg, wrapInt_succ, hsl, hsc, hel, hec]
  refine ⟨hfmt, ?_⟩
  intro hp hr
  rw [hfmt, hp, hr]
  decide

/-- Witness of the amended C5 on a 64-bit build: the location `file:///a/b.go`, range
(0,0)-(0,5), with the path taken to be the URI without its scheme. -/
theorem locToLink_format_witness :
    locToLink 64 (fun uri => ⟨uri.data.drop 7⟩) ⟨"file:///a/b.go", ⟨⟨0, 0⟩, ⟨0, 5⟩⟩⟩
      = "/a/b.go:1:1-1:6" :=
  (locToLink_format 64 (fun uri => ⟨uri.data.drop 7⟩)
    ⟨"file:///a/b.go", ⟨⟨0, 0⟩, ⟨0, 5⟩⟩⟩
    (by unfold belowMaxInt; decide) (by unfold belowMaxInt; decide)
    (by unfold belowMaxInt; decide) (by unfold belowMaxInt; decide)).2 (by decide) rfl

/-! ## Server-initiated edits -/

/-- C7. `clientHandler.ApplyEdit` never returns an RPC error; its response has
`Applied` true and an empty failure reason when `editWorkspace` succeeds, and `Applied`
false with the error's message as failure reason when `editWorkspace` fails. -/
theorem ApplyEdit_response (env : Env) (params : ApplyWorkspaceEditParams) :
    (clientHandler.ApplyEdit env params).2 = none
      ∧ (clientHandler.ApplyEdit env params).1.Applied
          = (env.editWorkspace params.Edit).isNone
      ∧ (clientHandler.ApplyEdit env params).1.FailureReason
          = (env.editWorkspace params.Edit).getD "" := by
  unfold clientHandler.ApplyEdit
  cases env.editWorkspace params.Edit <;> simp

/-! ## Completion -/

theorem listLoop_skip ( lib : GoLib) (w : Win) (out : List Event)
    (pre rest : List CompletionItem)
    (hpre : ∀ c ∈ pre, ∀ t, c.TextEdit = some t →
      readable t ∧ (fragmentAt w t = .ok "" ∨ ∃ e, fragmentAt w t = .error e)) :
    listLoop lib w ⟨"", out⟩ (pre ++ rest) = listLoop lib w ⟨"", out⟩ rest := by
  induction pre with
  | nil => rfl
  | cons c pre ih =>
    have ih' := ih fun i hi => hpre i (List.mem_cons_of_mem _ hi)
    cases hte : c.TextEdit with
    | none => simpa only [List.cons_append, listLoop, listStep, hte] using ih'
    | some t =>
      obtain ⟨hlen, hr⟩ := hpre c (List.mem_cons_self _ _) t hte
      have hlen' : ¬ t.Range.End.Character - t.Range.Start.Character < 0 :=
        not_lt.mpr hlen
      rcases hr with hr | ⟨e, hr⟩
      · unfold fragmentAt at hr
        simpa only [List.cons_append, listLoop, listStep, hte, if_true, hlen', if_false,
          hr, filterAndPrint_empty] using ih'
      · unfold fragmentAt at hr
        simpa only [List.cons_append, listLoop, listStep, hte, if_true, hlen', if_false,
          hr] using ih'

theorem listLoop_first_read ( lib : GoLib) (w : Win) (sel : String) (out : List Event)
    (item : CompletionItem) (te : TextEdit) (rest : List CompletionItem)
    (hte : item.TextEdit = some te) (hlen : readable te)
    (hread : fragmentAt w te = .ok sel) (hsel : sel ≠ "") :
    listLoop lib w ⟨"", out⟩ (item :: rest)
      = .ok ⟨sel, out ++ listingOf lib sel (item :: rest)⟩ := by
  have hlen' : ¬ te.Range.End.Character - te.Range.Start.Character < 0 := not_lt.mpr hlen
  unfold fragmentAt at hread
  simp only [listLoop, listStep, hte, if_true, hlen', if_false, hread,
    filterAndPrint_cached lib sel out item te hsel]
  rw [listLoop_cached lib w sel hsel]
  simp [listingOf, hte, List.append_assoc]

theorem Completion_listing_branch (env : Env) ( lib : GoLib) (rc : RemoteCmd)
    (edit : Bool) (w : Win) (pos : TextDocumentPositionParams) (filename : String)
    (items : List CompletionItem)
    (hw : env.OpenWin rc.winid = .ok w) (hp : w.Position = .ok (pos, filename))
    (hs : rc.server.Completion ⟨pos⟩ = .ok ⟨items⟩)
    (hmode : edit = false ∨ items.length ≠ 1) (hne : items ≠ []) :
    RemoteCmd.Completion env lib rc edit
      = match listLoop lib w ⟨"", []⟩ items with
        | .error out => .panicked out
        | .ok st => .returned st.out none := by
  have hlen : ¬ items.length = 0 := fun h => hne (List.length_eq_zero.mp h)
  simp only [RemoteCmd.Completion, hw, hp, hs]
  split
  · rename_i item
    rcases hmode with h | h
    · exact absurd h (by simp)
    · exact absurd rfl h
  · simp only [hlen, if_false]

/-- C1, refuted. With `Fo` selected in the window, the candidate `Foo` carries an edit and
its key `foo` starts with `fo`, yet `RemoteCmd.Completion` does not print it, while it
prints `Format`: in the first run the edit range of `Foo` is empty, in the second the
read at its range fails, and in both the fragment is only read at the next candidate. -/
theorem completion_matching_candidate_dropped :
    HasPrefix (asciiLib.ToLower "foo") (asciiLib.ToLower "Fo") = true
      ∧ RemoteCmd.Completion (envOf (winHolding "Fo")) asciiLib
          ⟨serverReplying [candidate "Foo" "foo" 2 2, candidate "Format" "Format" 0 2] [],
            1⟩ false
        = .returned [.stdout "\"Format\", type: 3\n", .stdout "3+#0,3+#2c/Format\n"] none
      ∧ RemoteCmd.Completion (envOf (winFailingOnLine9 "Fo")) asciiLib
          ⟨serverReplying [candidateOnLine9 "Foo" "foo", candidate "Format" "Format" 0 2] [],
            1⟩ false
        = .returned [.stdout "\"Format\", type: 3\n", .stdout "3+#0,3+#2c/Format\n"] none := by
  decide

/-- C1, amended. Let the reply be `pre ++ item :: rest`, not taken by the edit mode,
where the read made for every candidate of `pre` that carries an edit fails or yields
the empty text, and the read made for `item` yields the non-empty fragment `sel` (no
read being made on a range that ends before its start character).  Then
`RemoteCmd.Completion` returns without error having printed nothing for `pre` and, from
`item` onwards, exactly the lines of the candidates that carry an edit and whose
lower-cased filter key starts with the lower-cased `sel`; a printed candidate always
adds at least one line. -/
theorem completion_lists_matching (env : Env) ( lib : GoLib) (rc : RemoteCmd)
    (edit : Bool) (w : Win) (pos : TextDocumentPositionParams) (filename sel : String)
    (pre : List CompletionItem) (item : CompletionItem) (te : TextEdit)
    (rest : List CompletionItem)
    (hw : env.OpenWin rc.winid = .ok w) (hp : w.Position = .ok (pos, filename))
    (hs : rc.server.Completion ⟨pos⟩ = .ok ⟨pre ++ item :: rest⟩)
    (hmode : edit = false ∨ (pre ++ item :: rest).length ≠ 1)
    (hpre : ∀ c ∈ pre, ∀ t, c.TextEdit = some t →
      readable t ∧ (fragmentAt w t = .ok "" ∨ ∃ e, fragmentAt w t = .error e))
    (hte : item.TextEdit = some te) (hlen : readable te)
    (hread : fragmentAt w te = .ok sel) (hsel : sel ≠ "") :
    RemoteCmd.Completion env lib rc edit
        = .returned (listingOf lib sel (item :: rest)) none
      ∧ ∀ c t, candidateLines lib c t ≠ [] := by
  refine ⟨?_, ?_⟩
  · rw [Completion_listing_branch env lib rc edit w pos filename _ hw hp hs hmode
        (by simp),
      listLoop_skip lib w [] pre (item :: rest) hpre,
      listLoop_first_read lib w sel [] item te rest hte hlen hread hsel]
    simp
  · intro c t
    simp [candidateLines]

/-- Witness of the amended C1: with `Fo` in the window, the first candidate (empty edit
range) is passed over, the fragment `Fo` is read at `Format`, and of the candidates from
there on `Format` and the snippet with filter text `FORMAT` are listed, `Bar` and the
candidate without an edit are not. -/
theorem completion_lists_matching_witness :
    RemoteCmd.Completion (envOf (winHolding "Fo")) asciiLib
        ⟨serverReplying
          [candidate "Foo" "foo" 2 2, candidate "Format" "Format" 0 2,
           candidate "Bar" "Bar" 0 2, snippet "fmt" "FORMAT" "x" 0 2,
           ⟨"nil", 1, 1, "", none, []⟩] [], 1⟩ false
      = .returned
          [.stdout "\"Format\", type: 3\n", .stdout "3+#0,3+#2c/Format\n",
           .stdout "\"fmt\", type: 15\n", .stdout "3+#0,3+#2c/x\n"] none :=
  (completion_lists_matching (envOf (winHolding "Fo")) asciiLib
    ⟨serverReplying
      [candidate "Foo" "foo" 2 2, candidate "Format" "Format" 0 2,
       candidate "Bar" "Bar" 0 2, snippet "fmt" "FORMAT" "x" 0 2,
       ⟨"nil", 1, 1, "", none, []⟩] [], 1⟩ false (winHolding "Fo") cursor "/a/b.go" "Fo"
    [candidate "Foo" "foo" 2 2] (candidate "Format" "Format" 0 2)
    ⟨⟨⟨3, 0⟩, ⟨3, 2⟩⟩, "Format"⟩
    [candidate "Bar" "Bar" 0 2, snippet "fmt" "FORMAT" "x" 0 2,
     ⟨"nil", 1, 1, "", none, []⟩]
    rfl rfl rfl (Or.inl rfl)
    (by
      intro c hc t ht
      simp only [List.mem_singleton] at hc
      subst hc
      simp only [candidate, Option.some.injEq] at ht
      subst ht
      exact ⟨by unfold readable; decide, Or.inl (by decide)⟩)
    rfl (by unfold readable; decide) (by decide) (by decide)).1.trans (by decide)

/-- C2, refuted. With nothing selected (the edit range of the candidate is empty, so the
fragment read from the window is empty) the completion command prints nothing, although
the candidate carries an edit. -/
theorem completion_empty_selection_counterexample :
    (candidate "Println" "Println" 2 2).TextEdit.isSome = true
      ∧ RemoteCmd.Completion (envOf (winHolding "Fo")) asciiLib
          ⟨serverReplying [candidate "Println" "Println" 2 2] [], 1⟩ false
        = .returned [] none := by
  decide

/-- C2, amended. When the selected fragment is empty (every read of the window yields the
empty text), the listing pass prints no candidate: it adds nothing to the output. -/
theorem completion_listing_empty_selection ( lib : GoLib) (w : Win) (out : List Event)
    (items : List CompletionItem)
    (hread : ∀ item ∈ items, ∀ te, item.TextEdit = some te →
      0 ≤ te.Range.End.Character - te.Range.Start.Character
        ∧ w.ReadAt te.Range.Start.Line te.Range.Start.Character te.Range.End.Line
            te.Range.End.Character
            (te.Range.End.Character - te.Range.Start.Character).toNat = .ok "") :
    listLoop lib w ⟨"", out⟩ items = .ok ⟨"", out⟩ := by
  induction items with
  | nil => simp [listLoop]
  | cons item items ih =>
    have ih' := ih fun i hi => hread i (List.mem_cons_of_mem _ hi)
    cases hte : item.TextEdit with
    | none => simpa only [listLoop, listStep, hte] using ih'
    | some te =>
      obtain ⟨hlen, hr⟩ := hread item (List.mem_cons_self _ _) te hte
      have hlen' : ¬ te.Range.End.Character - te.Range.Start.Character < 0 :=
        not_lt.mpr hlen
      simpa only [listLoop, listStep, hte, if_true, hlen', if_false, hr,
        filterAndPrint_empty] using ih'

/-- Witness of the amended C2 on two candidates whose edit range is empty. -/
theorem completion_listing_empty_selection_witness :
    listLoop asciiLib (winHolding "Fo") ⟨"", []⟩
        [candidate "Println" "Println" 2 2, candidate "Printf" "Printf" 2 2]
      = .ok ⟨"", []⟩ :=
  completion_listing_empty_selection asciiLib (winHolding "Fo") []
    [candidate "Println" "Println" 2 2, candidate "Printf" "Printf" 2 2] (by
      intro item hitem te hte
      simp only [List.mem_cons, List.mem_singleton, List.not_mem_nil, or_false] at hitem
      rcases hitem with rfl | rfl <;>
        · simp only [candidate, Option.some.injEq] at hte
          subst hte
          decide)

/-- C6. In edit mode, when the window and the position resolve and the server returns
exactly one candidate, which carries an edit, the command applies exactly that edit,
writes nothing, and returns an error exactly when applying the edit fails (the error
wraps the failure). -/
theorem completion_edit_single (env : Env) ( lib : GoLib) (rc : RemoteCmd) (w : Win)
    (pos : TextDocumentPositionParams) (filename : String) (item : CompletionItem)
    (te : TextEdit)
    (hw : env.OpenWin rc.winid = .ok w) (hp : w.Position = .ok (pos, filename))
    (hs : rc.server.Completion ⟨pos⟩ = .ok ⟨[item]⟩) (hte : item.TextEdit = some te) :
    RemoteCmd.Completion env lib rc true
      = .returned [.edit [te]]
          ((w.Edit [te]).map fun err => "failed to apply completion edit: " ++ err) := by
  simp only [RemoteCmd.Completion, hw, hp, hs, hte]
  cases w.Edit [te] <;> simp [Errorf_apply_failed]

/-- Witness of C6: the single candidate `Println` is applied and nothing is printed. -/
theorem completion_edit_single_witness :
    RemoteCmd.Completion (envOf (winHolding "Fo")) asciiLib
        ⟨serverReplying [candidate "Println" "Println" 0 2] [], 1⟩ true
      = .returned [.edit [⟨⟨⟨3, 0⟩, ⟨3, 2⟩⟩, "Println"⟩]] none :=
  completion_edit_single (envOf (winHolding "Fo")) asciiLib
    ⟨serverReplying [candidate "Println" "Println" 0 2] [], 1⟩ (winHolding "Fo") cursor
    "/a/b.go" (candidate "Println" "Println" 0 2) ⟨⟨⟨3, 0⟩, ⟨3, 2⟩⟩, "Println"⟩
    rfl rfl rfl rfl

/-! ## Location commands -/

/-- C8. When the cursor position resolves and the server answers the references request
(made with `IncludeDeclaration` set): on an empty reply the command writes exactly
`No references found.` and a newline to Stderr, nothing to Stdout, and returns no error;
on a non-empty reply it writes no message and hands exactly the returned locations to
`PrintLocations`, whose result it returns. -/
theorem references_reply (env : Env) (rc : RemoteCmd) (pos : TextDocumentPositionParams)
    (filename : String) (loc : List Location)
    (hp : rc.getPosition env = .ok (pos, filename))
    (hs : rc.server.References ⟨pos, ⟨true⟩⟩ = .ok loc) :
    (loc = [] →
        RemoteCmd.References env rc = .returned [.stderr "No references found.\n"] none)
      ∧ (loc ≠ [] →
        RemoteCmd.References env rc
          = .returned [.printLocations loc] (env.PrintLocations loc)) := by
  have hmsg : Sprintf "No references found.\n" [] = "No references found.\n" := by decide
  refine ⟨?_, ?_⟩
  · intro hl
    subst hl
    simp [RemoteCmd.References, hp, hs, hmsg]
  · intro hl
    simp [RemoteCmd.References, hp, hs, hl]

/-- Witness of C8 on an empty reply. -/
theorem references_reply_witness :
    RemoteCmd.References (envOf (winHolding "")) ⟨serverReplying [] [], 1⟩
      = .returned [.stderr "No references found.\n"] none :=
  (references_reply (envOf (winHolding "")) ⟨serverReplying [] [], 1⟩ cursor "/a/b.go" []
    rfl rfl).1 rfl

/-- C9, failing input. Without print mode, on the reply consisting of the one location
(0,0)-(0,5) of `/a/b.go`, `Definition` and `TypeDefinition` send the location to the
plumber, whereas `Implementation` prints it and sends nothing to the plumber. -/
theorem implementation_ignores_print_mode :
    RemoteCmd.Implementation (envOf (winHolding ""))
        ⟨serverReplying [] [sampleLocation], 1⟩ false
      = .returned [.printLocations [sampleLocation]] none
    ∧ RemoteCmd.Definition (envOf (winHolding ""))
        ⟨serverReplying [] [sampleLocation], 1⟩ false
      = .returned [.plumbLocations [sampleLocation]] none
    ∧ RemoteCmd.TypeDefinition (envOf (winHolding ""))
        ⟨serverReplying [] [sampleLocation], 1⟩ false
      = .returned [.plumbLocations [sampleLocation]] none := by
  decide

/-! ## Server errors -/

/-- C10, refuted. When the server answers the hover request with the RPC error `boom`,
`Hover` returns the error `boom` itself, not `bad server response: boom`. -/
theorem hover_error_counterexample :
    RemoteCmd.Hover (envOf (winHolding "")) ⟨serverFailing "boom", 1⟩
        = .returned [] (some "boom")
      ∧ RemoteCmd.Hover (envOf (winHolding "")) ⟨serverFailing "boom", 1⟩
        ≠ .returned [] (some "bad server response: boom") := by
  decide

/-- C10, amended. When the window, the cursor position and the document URI resolve and
the server answers the request of an operation with the RPC error `e`, the operation
produces no output and returns an error: `Definition` returns `bad server response: `
followed by `e`, and `TypeDefinition`, `Implementation`, `Hover`, `References`,
`Rename`, `SignatureHelp`, `Completion` and `DocumentSymbol` return `e` unchanged. -/
theorem server_error_aborts (env : Env) (rc : RemoteCmd) (w : Win)
    (pos : TextDocumentPositionParams) (filename uri filename' : String) (e : Error)
    (hw : env.OpenWin rc.winid = .ok w) (hp : w.Position = .ok (pos, filename))
    (hu : w.DocumentURI = .ok (uri, filename')) :
    (∀ print, rc.server.Definition ⟨pos⟩ = .error e →
        RemoteCmd.Definition env rc print
          = .returned [] (some ("bad server response: " ++ e)))
      ∧ (∀ print, rc.server.TypeDefinition ⟨pos⟩ = .error e →
        RemoteCmd.TypeDefinition env rc print = .returned [] (some e))
      ∧ (∀ print, rc.server.Implementation ⟨pos⟩ = .error e →
        RemoteCmd.Implementation env rc print = .returned [] (some e))
      ∧ (rc.server.Hover ⟨pos⟩ = .error e →
        RemoteCmd.Hover env rc = .returned [] (some e))
      ∧ (rc.server.References ⟨pos, ⟨true⟩⟩ = .error e →
        RemoteCmd.References env rc = .returned [] (some e))
      ∧ (∀ newname, rc.server.Rename ⟨pos.TextDocument, pos.Position, newname⟩ = .error e →
        RemoteCmd.Rename env rc newname = .returned [] (some e))
      ∧ (rc.server.SignatureHelp ⟨pos⟩ = .error e →
        RemoteCmd.SignatureHelp env rc = .returned [] (some e))
      ∧ (∀ lib edit, rc.server.Completion ⟨pos⟩ = .error e →
        RemoteCmd.Completion env lib rc edit = .returned [] (some e))
      ∧ (rc.server.DocumentSymbol ⟨⟨uri⟩⟩ = .error e →
        RemoteCmd.DocumentSymbol env rc = .returned [] (some e)) := by
  have hpos : rc.getPosition env = .ok (pos, filename) := by
    simp [RemoteCmd.getPosition, hw, hp]
  refine ⟨?_, ?_, ?_, ?_, ?_, ?_, ?_, ?_, ?_⟩
  · intro print hs
    simp [RemoteCmd.Definition, hpos, hs, Errorf_bad_response]
  · intro print hs
    simp [RemoteCmd.TypeDefinition, hpos, hs]
  · intro print hs
    simp [RemoteCmd.Implementation, hpos, hs]
  · intro hs
    simp [RemoteCmd.Hover, hpos, hs]
  · intro hs
    simp [RemoteCmd.References, hpos, hs]
  · intro newname hs
    simp [RemoteCmd.Rename, hpos, hs]
  · intro hs
    simp [RemoteCmd.SignatureHelp, hpos, hs]
  · intro lib edit hs
    simp [RemoteCmd.Completion, hw, hp, hs]
  · intro hs
    simp [RemoteCmd.DocumentSymbol, hw, hu, hs]

/-- Witness of the amended C10: against a server that fails every request with `boom`,
`Definition` returns `bad server response: boom` and `References` returns `boom`. -/
theorem server_error_aborts_witness :
    RemoteCmd.Definition (envOf (winHolding "")) ⟨serverFailing "boom", 1⟩ true
        = .returned [] (some "bad server response: boom")
      ∧ RemoteCmd.References (envOf (winHolding "")) ⟨serverFailing "boom", 1⟩
        = .returned [] (some "boom") :=
  have h := server_error_aborts (envOf (winHolding "")) ⟨serverFailing "boom", 1⟩
    (winHolding "") cursor "/a/b.go" "file:///a/b.go" "/a/b.go" "boom" rfl rfl rfl
  ⟨h.1 true rfl, h.2.2.2.2.1 rfl⟩

/-! ## Opening a document -/

theorem extAux_shape (l acc : List Char) :
    extAux l acc = [] ∨ ∃ t, extAux l acc = '.' :: t := by
  induction l generalizing acc with
  | nil => exact Or.inl rfl
  | cons c rest ih =>
    unfold extAux
    split_ifs
    · exact Or.inl rfl
    · exact Or.inr ⟨acc, rfl⟩
    · exact ih _

theorem Ext_shape (path : String) :
    Ext path = "" ∨ ∃ t, (Ext path).data = '.' :: t := by
  rcases extAux_shape path.data.reverse [] with h | ⟨t, h⟩
  · exact Or.inl (String.ext (by simpa [Ext] using h))
  · exact Or.inr ⟨t, by simpa [Ext] using h⟩

/-- C11, failing input. For `/x/foo.py` the notification `textDocument/didOpen` carries
the URI `file:///x/foo.py`, version 0, the given body, and the language id `.py`: the
extension computed by `filepath.Ext` keeps its dot, so the case `py` of the mapping is
never taken, and for no file name at all is the language id `python`. -/
theorem DidOpen_language_id (c : lspClient) (body : String) :
    (c.DidOpen "/x/foo.py" body).1
        = ("textDocument/didOpen", ⟨⟨"file:///x/foo.py", ".py", 0, body⟩⟩)
      ∧ ∀ filename,
          (c.DidOpen filename body).1.2.TextDocument.LanguageID = Ext filename
            ∧ (c.DidOpen filename body).1.2.TextDocument.LanguageID ≠ "python" := by
  refine ⟨?_, ?_⟩
  · have h1 : Ext "/x/foo.py" = ".py" := by decide
    have h2 : ("file://" : String) ++ "/x/foo.py" = "file:///x/foo.py" := by decide
    have h3 : ¬ (".py" : String) = "py" := by decide
    simp only [lspClient.DidOpen, h1, h2, if_neg h3]
  · intro filename
    have hpy : Ext filename ≠ "py" := by
      rcases Ext_shape filename with h | ⟨t, h⟩
      · rw [h]; decide
      · intro e
        have h' : ("py" : String).data.head? = some '.' := by rw [← e, h]; rfl
        exact absurd h' (by decide)
    have hpython : Ext filename ≠ "python" := by
      rcases Ext_shape filename with h | ⟨t, h⟩
      · rw [h]; decide
      · intro e
        have h' : ("python" : String).data.head? = some '.' := by rw [← e, h]; rfl
        exact absurd h' (by decide)
    simp only [lspClient.DidOpen, if_neg hpy]
    exact ⟨trivial, hpython⟩

/-! ## Walking the symbol forest -/

theorem walkDocumentSymbols_nil {α : Type} (d : Nat) (f : DocumentSymbol → Nat → List α) :
    walkDocumentSymbols [] d f = [] := by
  rw [walkDocumentSymbols]

theorem walkDocumentSymbols_cons {α : Type} (s : DocumentSymbol)
    (rest : List DocumentSymbol) (d : Nat) (f : DocumentSymbol → Nat → List α) :
    walkDocumentSymbols (s :: rest) d f
      = f s d ++ walkDocumentSymbols s.Children (d + 1) f
          ++ walkDocumentSymbols rest d f := by
  cases s
  rw [walkDocumentSymbols, walkChildren]

theorem countSymbols_nil : countSymbols [] = 0 := by
  rw [countSymbols]

theorem countSymbols_cons (s : DocumentSymbol) (rest : List DocumentSymbol) :
    countSymbols (s :: rest) = 1 + countSymbols s.Children + countSymbols rest := by
  cases s
  rw [countSymbols, countChildren]

theorem countSymbols_append (l₁ l₂ : List DocumentSymbol) :
    countSymbols (l₁ ++ l₂) = countSymbols l₁ + countSymbols l₂ := by
  induction l₁ with
  | nil => simp [countSymbols_nil]
  | cons s rest ih =>
    rw [List.cons_append, countSymbols_cons, countSymbols_cons, ih]
    omega

/-- Induction over forests: a property that holds of the empty forest, and of
`s :: rest` whenever it holds of the children of `s` and of `rest`, holds of all. -/
theorem forest_induction (P : List DocumentSymbol → Prop) (hnil : P [])
    (hcons : ∀ s rest, P s.Children → P rest → P (s :: rest))
    (syms : List DocumentSymbol) : P syms := by
  have key : ∀ n syms, countSymbols syms ≤ n → P syms := by
    intro n
    induction n with
    | zero =>
      intro syms h
      cases syms with
      | nil => exact hnil
      | cons s rest =>
        rw [countSymbols_cons] at h
        omega
    | succ n ih =>
      intro syms h
      cases syms with
      | nil => exact hnil
      | cons s rest =>
        rw [countSymbols_cons] at h
        exact hcons s rest (ih _ (by omega)) (ih _ (by omega))
  exact key _ syms le_rfl

/-- The walk is determined by the sequence of its calls: running it with `f` is
running it with the callback that records its arguments, then performing `f`
on each record. -/
theorem walkDocumentSymbols_calls {α : Type} (f : DocumentSymbol → Nat → List α)
    (syms : List DocumentSymbol) (d : Nat) :
    walkDocumentSymbols syms d f
      = (walkDocumentSymbols syms d fun s k => [(s, k)]).flatMap fun p => f p.1 p.2 := by
  revert d
  refine forest_induction
    (fun syms => ∀ d, walkDocumentSymbols syms d f
      = (walkDocumentSymbols syms d fun s k => [(s, k)]).flatMap fun p => f p.1 p.2)
    ?_ ?_ syms
  · intro d
    simp [walkDocumentSymbols_nil]
  · intro s rest hc hr d
    rw [walkDocumentSymbols_cons, walkDocumentSymbols_cons, hc (d + 1), hr d]
    simp [List.flatMap_append]

theorem walkDocumentSymbols_calls_length (syms : List DocumentSymbol) (d : Nat) :
    (walkDocumentSymbols syms d fun s k => [(s, k)]).length = countSymbols syms := by
  revert d
  refine forest_induction
    (fun syms => ∀ d,
      (walkDocumentSymbols syms d fun s k => [(s, k)]).length = countSymbols syms)
    ?_ ?_ syms
  · intro d
    simp [walkDocumentSymbols_nil, countSymbols_nil]
  · intro s rest hc hr d
    rw [walkDocumentSymbols_cons, countSymbols_cons]
    simp only [List.length_append, List.length_singleton, hc (d + 1), hr d]

theorem walkDocumentSymbols_map_flatMap (syms : List DocumentSymbol) (d : Nat) :
    (walkDocumentSymbols syms d fun s k => [(s, k)])
      = (syms.map fun s => (s, d)).flatMap fun p =>
          walkDocumentSymbols [p.1] p.2 fun s k => [(s, k)] := by
  induction syms with
  | nil => simp [walkDocumentSymbols_nil]
  | cons s rest ih =>
    rw [walkDocumentSymbols_cons, ih]
    simp [walkDocumentSymbols_cons, walkDocumentSymbols_nil]

theorem preorderStack_eq (fuel : Nat) (stack : List (DocumentSymbol × Nat))
    (h : countSymbols (stack.map Prod.fst) ≤ fuel) :
    preorderStack fuel stack
      = stack.flatMap fun p => walkDocumentSymbols [p.1] p.2 fun s k => [(s, k)] := by
  induction fuel generalizing stack with
  | zero =>
    cases stack with
    | nil => simp [preorderStack]
    | cons p stack =>
      rw [List.map_cons, countSymbols_cons] at h
      omega
  | succ fuel ih =>
    cases stack with
    | nil => simp [preorderStack]
    | cons p stack =>
      obtain ⟨s, d⟩ := p
      rw [List.map_cons, countSymbols_cons] at h
      have h' : countSymbols
          (((s.Children.map fun c => (c, d + 1)) ++ stack).map Prod.fst) ≤ fuel := by
        have hm : ((s.Children.map fun c => (c, d + 1)).map Prod.fst) = s.Children := by
          simp [List.map_map, Function.comp_def]
        rw [List.map_append, hm, countSymbols_append]
        simp only at h
        omega
      rw [preorderStack, ih _ h', List.flatMap_append, ← walkDocumentSymbols_map_flatMap]
      simp [walkDocumentSymbols_cons, walkDocumentSymbols_nil]

theorem preorder_eq_calls (syms : List DocumentSymbol) :
    preorder syms = walkDocumentSymbols syms 0 fun s k => [(s, k)] := by
  have hm : ((syms.map fun s => (s, 0)).map Prod.fst) = syms := by
    simp [List.map_map, Function.comp_def]
  rw [preorder, preorderStack_eq _ _ (by rw [hm]), ← walkDocumentSymbols_map_flatMap]

theorem Repeat_space (n : Nat) : Repeat " " n = ⟨List.replicate n ' '⟩ := by
  apply String.ext
  show (List.replicate n [' ']).flatten = List.replicate n ' '
  induction n with
  | zero => rfl
  | succ n ih => simp [List.replicate_succ, ih]

theorem symbol_lines_eq (env : Env) (uri : String) (s : DocumentSymbol) (d : Nat) :
    [Event.stdout (Sprintf "%v%v %v %v\n"
        [.str (Repeat " " d), .int s.Kind, .str s.Name, .str s.Detail]),
     Event.stdout (Sprintf "%v %v\n"
        [.str (Repeat " " d), .str (env.LocationLink ⟨uri, s.SelectionRange⟩)])]
      = symbolLines env uri s d := by
  have h1 : Sprintf "%v%v %v %v\n"
        [.str (Repeat " " d), .int s.Kind, .str s.Name, .str s.Detail]
      = ⟨List.replicate d ' '⟩ ++ toString s.Kind ++ " " ++ s.Name ++ " " ++ s.Detail
          ++ "\n" := by
    apply String.ext
    simp [Sprintf, sprintfAux, formatArg, Repeat_space]
  have h2 : Sprintf "%v %v\n"
        [.str (Repeat " " d), .str (env.LocationLink ⟨uri, s.SelectionRange⟩)]
      = ⟨List.replicate d ' '⟩ ++ " " ++ env.LocationLink ⟨uri, s.SelectionRange⟩
          ++ "\n" := by
    apply String.ext
    simp [Sprintf, sprintfAux, formatArg, Repeat_space]
  rw [h1, h2, symbolLines]

/-- C12. `walkDocumentSymbols syms 0 f` is a total function, and it performs `f` on
exactly the symbols of the forest in depth-first pre-order (the order of the explicit
stack walk `preorder`: a symbol before its children, siblings in list order), once per
symbol, with depth 0 for the top-level symbols and the depth of the parent plus one for
a child.  Hence, on a non-empty reply, `RemoteCmd.DocumentSymbol` prints for each symbol,
in that order, a line indented by as many spaces as its depth, followed by the line of
the location link of its selection range. -/
theorem walkDocumentSymbols_preorder {α : Type} (f : DocumentSymbol → Nat → List α)
    (syms : List DocumentSymbol) (env : Env) (rc : RemoteCmd) (w : Win)
    (uri filename : String) :
    walkDocumentSymbols syms 0 f = (preorder syms).flatMap (fun p => f p.1 p.2)
      ∧ (preorder syms).length = countSymbols syms
      ∧ (∀ s rest d, walkDocumentSymbols (s :: rest) d f
          = f s d ++ walkDocumentSymbols s.Children (d + 1) f
              ++ walkDocumentSymbols rest d f)
      ∧ (env.OpenWin rc.winid = .ok w → w.DocumentURI = .ok (uri, filename) →
          rc.server.DocumentSymbol ⟨⟨uri⟩⟩ = .ok syms → syms ≠ [] →
          RemoteCmd.DocumentSymbol env rc
            = .returned ((preorder syms).flatMap fun p => symbolLines env uri p.1 p.2)
                none) := by
  refine ⟨?_, ?_, ?_, ?_⟩
  · rw [preorder_eq_calls]
    exact walkDocumentSymbols_calls f syms 0
  · rw [preorder_eq_calls]
    exact walkDocumentSymbols_calls_length syms 0
  · intro s rest d
    exact walkDocumentSymbols_cons s rest d f
  · intro hw hu hs hne
    have hlen : ¬ syms.length = 0 := fun h => hne (List.length_eq_zero.mp h)
    simp only [RemoteCmd.DocumentSymbol, hw, hu, hs, hlen, if_false, symbol_lines_eq]
    rw [walkDocumentSymbols_calls, preorder_eq_calls]

/-- Witness of C12 on the forest `T` (with the methods `m` and `n`) followed by `g`. -/
theorem walkDocumentSymbols_preorder_witness :
    RemoteCmd.DocumentSymbol (envOf (winHolding "")) ⟨serverSymbols sampleForest, 1⟩
      = .returned
          [.stdout "23 T struct\n", .stdout " file:///a/b.go\n",
           .stdout " 12 m \n", .stdout "  file:///a/b.go\n",
           .stdout " 12 n \n", .stdout "  file:///a/b.go\n",
           .stdout "12 g \n", .stdout " file:///a/b.go\n"] none :=
  ((walkDocumentSymbols_preorder (fun _ _ => ([] : List Unit)) sampleForest
      (envOf (winHolding "")) ⟨serverSymbols sampleForest, 1⟩ (winHolding "")
      "file:///a/b.go" "/a/b.go").2.2.2 rfl rfl rfl (List.cons_ne_nil _ _)).trans
    (by decide)

end AcmeLsp
